import Mathlib

/-!
Verification of the ECS core (`src/ecs.hpp`) against its natural-language
specification.

The repository ships only the header `ecs.hpp`: all template member
functions (`World::registerComponent`, `World::addComponent`,
`World::registerSystem`, the whole of `SystemData`) are defined there and
are embedded directly from that source.  The bodies of the non-template
members (`ComponentPool`, `ComponentMask`, `Component::getComponentId`,
`World::newEntity` / `destroyEntity` / `entityExists` / `hasComponent` /
`removeComponent` / `getEntities` / `invokeSystem`) live in a `.cpp` file
that is not part of `src/`; those are modelled from the spec, each marked
`Modelled from the spec:` in its doc comment.

Machine integers: `EntityId` is `uint32_t` and `Component::Id` is `size_t`
in the source; all ids here are `Nat`.  No operation in the embedded
fragment performs arithmetic that could wrap (ids only grow by one per
allocation), so the abstraction is exact on the reachable range.
-/

abbrev EntityId := Nat

abbrev ComponentId := Nat

/-- Capacity of `ComponentMask` (`std::bitset<maxComponents>` in the source). -/
def maxComponents : Nat := 64

/-- `ComponentMask` wraps `std::bitset<64>`; the bitset's word is modelled as
the natural number whose binary digits are the bits.  All component ids the
World ever produces are below `maxComponents`, so no operation here reaches
bits the C++ bitset would not have. -/
structure ComponentMask where
  mask : Nat
deriving DecidableEq

/-- Modelled from the spec: `includes(id)` is a bit test. -/
def ComponentMask.includes (m : ComponentMask) (id : ComponentId) : Bool :=
  m.mask.testBit id

/-- Modelled from the spec: `includes(other)` is true iff `other` is a subset
of `this` (AND-then-equals-other). -/
def ComponentMask.includesMask (m other : ComponentMask) : Bool :=
  (m.mask &&& other.mask) == other.mask

/-- Modelled from the spec: `includesNot(other)` is true iff `this` and
`other` share no set bits (AND == 0). -/
def ComponentMask.includesNot (m other : ComponentMask) : Bool :=
  (m.mask &&& other.mask) == 0

/-- Modelled from the spec: `include(id)` sets one bit.  The C++ member
mutates in place; the model returns the updated mask.  (`include` is a Lean
keyword, hence the name `includeId`.) -/
def ComponentMask.includeId (m : ComponentMask) (id : ComponentId) : ComponentMask :=
  ⟨m.mask ||| 2 ^ id⟩

/-- Modelled from the spec: `operator+(Component::Id)` returns a new mask
with the bit added, leaving the operand unmodified. -/
def ComponentMask.addId (m : ComponentMask) (id : ComponentId) : ComponentMask :=
  ⟨m.mask ||| 2 ^ id⟩

/-- Modelled from the spec: `operator+(const ComponentMask&)` unions two
masks into a new mask, leaving both operands unmodified. -/
def ComponentMask.addMask (m other : ComponentMask) : ComponentMask :=
  ⟨m.mask ||| other.mask⟩

/-- Modelled from the spec: `clear()` empties the mask.  The model returns
the cleared mask. -/
def ComponentMask.clearMask (_ : ComponentMask) : ComponentMask :=
  ⟨0⟩

/-- The empty mask (`ComponentMask()` default constructor). -/
def ComponentMask.empty : ComponentMask := ⟨0⟩

/-- Modelled from the spec: `ComponentPool` is paged, type-erased storage
with one occupancy bit per entity slot.  The raw byte buffers and the page
partition are memory layout and carry no observable state beyond the slot
stride and which occupancy bits are set; the model keeps the stride
(`componentSize_`, `pageSize_`) and the set of ids whose occupancy bit is
set. -/
structure ComponentPool where
  componentSize_ : Nat
  pageSize_ : Nat
  occupied : Finset EntityId
deriving DecidableEq

/-- `ComponentPool(componentSize, pageSize = 0)`: fresh pool, nothing
occupied. -/
def ComponentPool.new (componentSize : Nat) (pageSize : Nat := 0) : ComponentPool :=
  ⟨componentSize, pageSize, ∅⟩

/-- Modelled from the spec: `has(id)` is true iff the occupancy bit for
`id`'s slot is set. -/
def ComponentPool.has (p : ComponentPool) (id : EntityId) : Bool :=
  decide (id ∈ p.occupied)

/-- Modelled from the spec: `add(id)` fails if `has(id)`; otherwise it sets
the occupancy bit and returns the (uninitialized) slot.  Failure is the
fail-fast precondition violation of spec §7, modelled as `none`. -/
def ComponentPool.add (p : ComponentPool) (id : EntityId) : Option ComponentPool :=
  if p.has id then none
  else some ⟨p.componentSize_, p.pageSize_, insert id p.occupied⟩

/-- Modelled from the spec: `get(id)` fails if `!has(id)`; otherwise it
returns the slot.  The raw bytes are not modelled, so a successful `get`
is `some ()`. -/
def ComponentPool.get (p : ComponentPool) (id : EntityId) : Option Unit :=
  if p.has id then some () else none

/-- Modelled from the spec: `remove(id)` fails if `!has(id)`; otherwise it
clears the occupancy bit only (no destructor, no shrinking). -/
def ComponentPool.remove (p : ComponentPool) (id : EntityId) : Option ComponentPool :=
  if p.has id then some ⟨p.componentSize_, p.pageSize_, p.occupied.erase id⟩
  else none

/-- One step of a client interaction with a pool (spec §8, pool occupancy
invariant). -/
inductive PoolOp where
  | addOp (id : EntityId)
  | removeOp (id : EntityId)
deriving DecidableEq

/-- Run a sequence of `add`/`remove` calls; any precondition violation
aborts the run. -/
def ComponentPool.runOps (p : ComponentPool) : List PoolOp → Option ComponentPool
  | [] => some p
  | PoolOp.addOp id :: rest =>
      match p.add id with
      | some p1 => p1.runOps rest
      | none => none
  | PoolOp.removeOp id :: rest =>
      match p.remove id with
      | some p1 => p1.runOps rest
      | none => none

/-- How one pool operation changes whether "the most recent operation on
`id` was an add". -/
def opStep (id : EntityId) (b : Bool) : PoolOp → Bool
  | PoolOp.addOp i => if i = id then true else b
  | PoolOp.removeOp i => if i = id then false else b

/-- "The most recent operation on `id` was an add not followed by a remove",
computed over the chronological op list. -/
def lastOpWasAdd (id : EntityId) (ops : List PoolOp) : Bool :=
  ops.foldl (opStep id) false

/-- `Component` registry entry (`class Component`).  The external `Struct`
type descriptor is consumed only for its byte size (`getStruct().getSize()`),
kept here as `structSize`. -/
structure Component where
  id : ComponentId
  name : String
  structSize : Nat
deriving DecidableEq

/-- Modelled from the spec: `Component::getComponentId` draws from a
process-wide monotonically increasing counter, shared across all component
registrations and not reset per World.  The counter is threaded explicitly:
constructing a component at counter value `ctr` yields id `ctr` and next
counter `ctr + 1`. -/
def Component.make (ctr : Nat) (name : String) (structSize : Nat) :
    Component × Nat :=
  (⟨ctr, name, structSize⟩, ctr + 1)

/-- `World::Entity`: liveness flag plus the component membership mask. -/
structure Entity where
  exists_ : Bool
  components : ComponentMask
deriving DecidableEq

/-- `World::System`: name and callback.  The callback body is outside the
model; it is identified by an opaque tag so that "which function was
invoked" is observable.  `lastDuration` (a wall-clock `double`) is timing
and is not modelled; `enabled` defaults to `true` as in the source. -/
structure System where
  name : String
  function : Nat
  enabled : Bool := true
deriving DecidableEq

/-- Insert-if-absent on an association list, the behaviour of
`boost::container::flat_map::emplace`: an emplace on a key already present
does nothing.  The flat_map's sorted physical layout is not observable
through `lookup`, so the new binding is simply consed. -/
def emplaceAssoc (m : List (String × Nat)) (k : String) (v : Nat) :
    List (String × Nat) :=
  if (m.lookup k).isSome then m else (k, v) :: m

/-- The `World` state (`class World`).  `entityIdFreeList_` is a
`std::priority_queue<EntityId, ..., std::greater<>>` (a min-heap); the model
keeps its multiset of elements as a list and pops the minimum. -/
structure World where
  components_ : List Component
  componentNames_ : List (String × Nat)
  componentPools_ : List ComponentPool
  entities_ : List Entity
  entityIdFreeList_ : List EntityId
  systems_ : List System
  systemNames_ : List (String × Nat)
deriving DecidableEq

/-- `World()` default constructor: everything empty. -/
def World.empty : World := ⟨[], [], [], [], [], [], []⟩

/-- Minimum of the free-list multiset: what `priority_queue::top` returns
(heap ordered by `std::greater`, so smallest first), `none` when empty. -/
def freeListMin? : List EntityId → Option EntityId
  | [] => none
  | x :: xs =>
      match freeListMin? xs with
      | none => some x
      | some m => some (min x m)

/-- Modelled from the spec: `entityExists(id)` bounds-checks against the
entity table and reads `exists`. -/
def World.entityExists (w : World) (id : EntityId) : Bool :=
  match w.entities_[id]? with
  | some e => e.exists_
  | none => false

/-- Modelled from the spec: `newEntity()` reuses the smallest
previously-freed id when the free list is non-empty (popping it from the
heap), otherwise appends a fresh id equal to the current entity-table
length; either way the record becomes `exists = true` with an empty mask.
Returns the id together with the updated World. -/
def World.newEntity (w : World) : EntityId × World :=
  match freeListMin? w.entityIdFreeList_ with
  | some m =>
      (m, { w with
              entities_ := w.entities_.set m ⟨true, ComponentMask.empty⟩,
              entityIdFreeList_ := w.entityIdFreeList_.erase m })
  | none =>
      (w.entities_.length,
       { w with entities_ := w.entities_ ++ [⟨true, ComponentMask.empty⟩] })

/-- Modelled from the spec: `destroyEntity(id)` requires `entityExists(id)`
(fail-fast, modelled as `none`); it sets `exists = false`, clears the mask,
and pushes `id` onto the free list.  It does not touch the component
pools. -/
def World.destroyEntity (w : World) (id : EntityId) : Option World :=
  if w.entityExists id then
    some { w with
             entities_ := w.entities_.set id ⟨false, ComponentMask.empty⟩,
             entityIdFreeList_ := id :: w.entityIdFreeList_ }
  else none

/-- Modelled from the spec: `hasComponent(id, compId)` delegates to the
entity's mask.  (`entities_[id]` on an out-of-range id is undefined in the
source; the model answers `false` there, and no claim depends on that
case.) -/
def World.hasComponent (w : World) (id : EntityId) (compId : ComponentId) : Bool :=
  match w.entities_[id]? with
  | some e => e.components.includes compId
  | none => false

/-- `World::registerComponent(name, args...)` (header, template): asserts
that `name` is not already registered (modelled as `none`), constructs the
`Component` (drawing a fresh id from the process-wide counter `ctr`),
appends a pool sized to the component's struct, and records the name.
Returns the World together with the advanced counter. -/
def World.registerComponent (w : World) (ctr : Nat) (name : String)
    (structSize : Nat) : Option (World × Nat) :=
  if w.components_.all (fun c => name ≠ c.name) then
    let p := Component.make ctr name structSize
    some ({ w with
              components_ := w.components_ ++ [p.1],
              componentPools_ :=
                w.componentPools_ ++ [ComponentPool.new p.1.structSize],
              componentNames_ := emplaceAssoc w.componentNames_ p.1.name p.1.id },
          p.2)
  else none

/-- Register a batch of components in order, threading the counter. -/
def World.registerComponents (w : World) (ctr : Nat) :
    List (String × Nat) → Option (World × Nat)
  | [] => some (w, ctr)
  | (name, sz) :: rest =>
      match w.registerComponent ctr name sz with
      | some (w1, c1) => w1.registerComponents c1 rest
      | none => none

/-- `World::addComponent(id, compId)` (header, template): asserts
`!hasComponent(id, compId)`, sets the mask bit, and forwards to
`componentPools_[compId].add(id)`.  Both the assert and an out-of-range
`compId` are modelled as `none`. -/
def World.addComponent (w : World) (id : EntityId) (compId : ComponentId) :
    Option World :=
  if w.hasComponent id compId then none
  else
    match w.entities_[id]?, w.componentPools_[compId]? with
    | some e, some pool =>
        match pool.add id with
        | some pool1 =>
            some { w with
                     entities_ :=
                       w.entities_.set id
                         { e with components := e.components.includeId compId },
                     componentPools_ := w.componentPools_.set compId pool1 }
        | none => none
    | _, _ => none

/-- Reset one bit of the mask, the `bitset::reset(compId)` step of
`removeComponent` (xor with the bit when it is set). -/
def ComponentMask.resetBit (m : ComponentMask) (id : ComponentId) : ComponentMask :=
  if m.includes id then ⟨m.mask ^^^ 2 ^ id⟩ else m

/-- Modelled from the spec: `removeComponent(id, compId)` clears the mask
bit and tells the pool to release the slot; the pool's `remove` fails on an
absent id (spec §7), modelled as `none`. -/
def World.removeComponent (w : World) (id : EntityId) (compId : ComponentId) :
    Option World :=
  match w.entities_[id]?, w.componentPools_[compId]? with
  | some e, some pool =>
      match pool.remove id with
      | some pool1 =>
          some { w with
                   entities_ :=
                     w.entities_.set id
                       { e with components := e.components.resetBit compId },
                   componentPools_ := w.componentPools_.set compId pool1 }
      | none => none
  | _, _ => none

/-- Modelled from the spec: `getEntities(mask = empty)` is a linear scan
producing, in ascending id order, every existing entity whose own mask
includes the filter. -/
def World.getEntities (w : World)
    (mask : ComponentMask := ComponentMask.empty) : List EntityId :=
  (List.range w.entities_.length).filter fun id =>
    match w.entities_[id]? with
    | some e => e.exists_ && e.components.includesMask mask
    | none => false

/-- `World::registerSystem` insertion loop (header, template): advance past
every entry whose name is `<` the new name, then insert before the first
entry whose name is not less. -/
def insertSystemSorted (s : System) : List System → List System
  | [] => [s]
  | x :: xs =>
      if x.name < s.name then x :: insertSystemSorted s xs
      else s :: x :: xs

/-- `World::registerSystem` rebuild loop (header, template):
`for i in [0, systems.size): systemNames_.emplace(systems[i].name, i)`,
starting from a cleared map. -/
def buildSystemNamesFrom (i : Nat) : List System → List (String × Nat) →
    List (String × Nat)
  | [], m => m
  | s :: rest, m => buildSystemNamesFrom (i + 1) rest (emplaceAssoc m s.name i)

/-- `World::registerSystem(name, func)` (header, template): sorted insertion
followed by rebuilding `systemNames_` from scratch. -/
def World.registerSystem (w : World) (name : String) (fnTag : Nat) : World :=
  let systems1 := insertSystemSorted ⟨name, fnTag, true⟩ w.systems_
  { w with
      systems_ := systems1,
      systemNames_ := buildSystemNamesFrom 0 systems1 [] }

/-- Register a batch of systems in order. -/
def World.registerSystems (w : World) (regs : List (String × Nat)) : World :=
  regs.foldl (fun acc p => acc.registerSystem p.1 p.2) w

/-- Modelled from the spec: `invokeSystem(name, dt)` looks the index up by
name, fails if absent, and calls the stored function with `dt`.  The model
returns the tag of the function that gets invoked (`dt` and the
`lastDuration` wall-clock update carry no modelled state). -/
def World.invokeSystem (w : World) (name : String) : Option Nat :=
  match w.systemNames_.lookup name with
  | some i => w.systems_[i]?.map System.function
  | none => none

/-- `SystemData<T>` (header, template): a bound secondary store.  It owns a
private `ComponentPool` (`data_`, slot stride `sizeof(T)`) and remembers the
driving component id (`boundComponent_`).  The `World&` reference is passed
explicitly to the operations that read the World.  The stored `T` values
are constructed/destroyed in raw slots; only occupancy is observable
state. -/
structure SystemData where
  boundComponent_ : ComponentId
  data_ : ComponentPool
deriving DecidableEq

/-- `SystemData(world, componentId)` constructor: fresh pool of stride
`sizeof(T)`. -/
def SystemData.new (componentId : ComponentId) (tSize : Nat) : SystemData :=
  ⟨componentId, ComponentPool.new tSize⟩

/-- `SystemData::has(id)`: delegates to the private pool. -/
def SystemData.has (sd : SystemData) (id : EntityId) : Bool :=
  sd.data_.has id

/-- `SystemData::add(id, args...)`: reserves a slot in the private pool and
constructs a `T` there; fails (pool precondition) when an entry exists. -/
def SystemData.add (sd : SystemData) (id : EntityId) : Option SystemData :=
  (sd.data_.add id).map fun p => { sd with data_ := p }

/-- `SystemData::remove(id)`: fetches the slot (`data_.get`, which requires
presence), runs the destructor, and releases the slot. -/
def SystemData.remove (sd : SystemData) (id : EntityId) : Option SystemData :=
  match sd.data_.get id with
  | some _ => (sd.data_.remove id).map fun p => { sd with data_ := p }
  | none => none

/-- Loop body of `SystemData::remove()` over an explicit entity list: for
each id that has an entry here but no longer carries the driving component
on the World's mask, destroy and release the entry.  (The guard guarantees
`remove` succeeds, so `getD` never takes its fallback.) -/
def SystemData.sweepList (w : World) : SystemData → List EntityId → SystemData
  | sd, [] => sd
  | sd, e :: rest =>
      SystemData.sweepList w
        (if sd.has e && !(w.hasComponent e sd.boundComponent_) then
          (sd.remove e).getD sd
        else sd)
        rest

/-- `SystemData::remove()` (parameterless sweep): iterates
`world_.getEntities()` — all existing entities — pruning stale entries. -/
def SystemData.removeSweep (sd : SystemData) (w : World) : SystemData :=
  SystemData.sweepList w sd w.getEntities

/-- Fixture: World with one component "pos" (id 0) registered at counter 0. -/
def exW1 : World :=
  ((World.empty.registerComponent 0 "pos" 4).getD (World.empty, 0)).1

/-- Fixture: entity 0 created. -/
def exW2 : World := exW1.newEntity.2

/-- Fixture: component 0 attached to entity 0. -/
def exW3 : World := (exW2.addComponent 0 0).getD exW2

/-- Fixture: component 0 removed again from entity 0. -/
def exW4 : World := (exW3.removeComponent 0 0).getD exW3

/-- Fixture: entity 0 destroyed (component entry still in the pool). -/
def exW5 : World := (exW3.destroyEntity 0).getD exW3

/-- Fixture: a bound store driven by component 0, holding an entry for
entity 0. -/
def exSD : SystemData :=
  ((SystemData.new 0 4).add 0).getD (SystemData.new 0 4)

/-- Fixture for the id-reuse scenario: one entity created. -/
def c1W1 : World := World.empty.newEntity.2

/-- Fixture: two entities created. -/
def c1W2 : World := c1W1.newEntity.2

/-- Fixture: three entities created. -/
def c1W3 : World := c1W2.newEntity.2

/-- Fixture: entity 1 of three destroyed. -/
def c1W4 : World := (c1W3.destroyEntity 1).getD c1W3

/-- Fixture: the world obtained by registering "a" then "b" through a single
World starting at counter 0. -/
def c3W : World :=
  ((World.empty.registerComponents 0 [("a", 1), ("b", 2)]).getD (World.empty, 0)).1

/-- Fixture: pool after `add 0; add 1; remove 0` from a fresh pool. -/
def c4Pool : ComponentPool :=
  ((ComponentPool.new 4).runOps
      [PoolOp.addOp 0, PoolOp.addOp 1, PoolOp.removeOp 0]).getD (ComponentPool.new 4)

/-- The `systemNames_` table is consistent with `systems_`: looking up any
registered name yields an index whose entry carries that name. -/
def goodTable (w : World) : Prop :=
  ∀ n, n ∈ w.systems_.map System.name →
    (w.systemNames_.lookup n).bind (fun i => w.systems_[i]?.map System.name) =
      some n

/-- Registry/pool alignment for a World that received consecutive counter
values starting at 0: the n-th registered component has id n and
`componentPools_[n]` is the pool allocated for it at registration. -/
def registryAligned (w : World) (ctr : Nat) : Prop :=
  ctr = w.components_.length ∧
  w.componentPools_.length = w.components_.length ∧
  ∀ (k : Nat) (comp : Component), w.components_[k]? = some comp →
    comp.id = k ∧ w.componentPools_[k]? = some (ComponentPool.new comp.structSize)

theorem nat_lor_land_absorb (a b : Nat) : (a ||| b) &&& a = a := by
  apply Nat.eq_of_testBit_eq
  intro i
  rw [Nat.testBit_and, Nat.testBit_or]
  cases a.testBit i <;> cases b.testBit i <;> rfl

theorem includesMask_addMask_left (a b : ComponentMask) :
    (a.addMask b).includesMask a = true := by
  simp [ComponentMask.addMask, ComponentMask.includesMask, beq_iff_eq,
    nat_lor_land_absorb]

theorem includesMask_addMask_right (a b : ComponentMask) :
    (a.addMask b).includesMask b = true := by
  simp [ComponentMask.addMask, ComponentMask.includesMask, beq_iff_eq]
  apply Nat.eq_of_testBit_eq
  intro i
  rw [Nat.testBit_and, Nat.testBit_or]
  cases a.mask.testBit i <;> cases b.mask.testBit i <;> rfl

theorem includesNot_iff_no_shared_bit (a b : ComponentMask) :
    a.includesNot b = true ↔
      ∀ i, (a.includes i && b.includes i) = false := by
  simp only [ComponentMask.includesNot, ComponentMask.includes, beq_iff_eq]
  constructor
  · intro h i
    have hb := congrArg (fun n => n.testBit i) h
    simpa [Nat.testBit_and] using hb
  · intro h
    apply Nat.eq_of_testBit_eq
    intro i
    rw [Nat.testBit_and, Nat.zero_testBit]
    exact h i

theorem includeId_idem (m : ComponentMask) (id : ComponentId) :
    (m.includeId id).includeId id = m.includeId id := by
  simp only [ComponentMask.includeId, ComponentMask.mk.injEq]
  apply Nat.eq_of_testBit_eq
  intro i
  rw [Nat.testBit_or, Nat.testBit_or]
  cases m.mask.testBit i <;> cases (2 ^ id).testBit i <;> rfl

theorem includesMask_empty (m : ComponentMask) :
    m.includesMask ComponentMask.empty = true := by
  simp [ComponentMask.includesMask, ComponentMask.empty, Nat.and_zero]

theorem resetBit_includes_self (m : ComponentMask) (i : ComponentId) :
    (m.resetBit i).includes i = false := by
  by_cases h : m.mask.testBit i = true
  · have hr : m.resetBit i = ⟨m.mask ^^^ 2 ^ i⟩ := by
      simp [ComponentMask.resetBit, ComponentMask.includes, h]
    rw [hr]
    simp only [ComponentMask.includes]
    rw [Nat.testBit_xor, h, Nat.testBit_two_pow_self]
    rfl
  · have hr : m.resetBit i = m := by
      simp [ComponentMask.resetBit, ComponentMask.includes, h]
    rw [hr]
    simp only [ComponentMask.includes]
    simpa using h

theorem pool_add_has (p p1 : ComponentPool) (i id : EntityId)
    (h : p.add i = some p1) :
    p1.has id = opStep id (p.has id) (PoolOp.addOp i) := by
  by_cases hi : p.has i = true
  · simp [ComponentPool.add, hi] at h
  · simp only [ComponentPool.add, hi, Bool.false_eq_true, if_false,
      Option.some.injEq] at h
    subst h
    by_cases hid : i = id
    · subst hid
      simp [ComponentPool.has, opStep, Finset.mem_insert]
    · have hid2 : id ≠ i := fun hc => hid hc.symm
      simp [ComponentPool.has, opStep, Finset.mem_insert, hid, hid2]

theorem pool_remove_has (p p1 : ComponentPool) (i id : EntityId)
    (h : p.remove i = some p1) :
    p1.has id = opStep id (p.has id) (PoolOp.removeOp i) := by
  by_cases hi : p.has i = true
  · simp only [ComponentPool.remove, hi, if_true, Option.some.injEq] at h
    subst h
    by_cases hid : i = id
    · subst hid
      simp [ComponentPool.has, opStep, Finset.mem_erase]
    · have hid2 : id ≠ i := fun hc => hid hc.symm
      simp [ComponentPool.has, opStep, Finset.mem_erase, hid, hid2]
  · simp [ComponentPool.remove, hi] at h

theorem runOps_has (ops : List PoolOp) :
    ∀ (p0 p : ComponentPool), p0.runOps ops = some p →
      ∀ id, p.has id = ops.foldl (opStep id) (p0.has id) := by
  induction ops with
  | nil =>
      intro p0 p h id
      simp only [ComponentPool.runOps, Option.some.injEq] at h
      subst h
      rfl
  | cons op rest ih =>
      intro p0 p h id
      cases op with
      | addOp i =>
          simp only [ComponentPool.runOps] at h
          cases ha : p0.add i with
          | none => rw [ha] at h; exact absurd h (by simp)
          | some p1 =>
              rw [ha] at h
              simp only [List.foldl_cons]
              rw [← pool_add_has p0 p1 i id ha]
              exact ih p1 p h id
      | removeOp i =>
          simp only [ComponentPool.runOps] at h
          cases ha : p0.remove i with
          | none => rw [ha] at h; exact absurd h (by simp)
          | some p1 =>
              rw [ha] at h
              simp only [List.foldl_cons]
              rw [← pool_remove_has p0 p1 i id ha]
              exact ih p1 p h id

theorem freeListMin?_eq_none (l : List EntityId) :
    freeListMin? l = none ↔ l = [] := by
  cases l with
  | nil => simp [freeListMin?]
  | cons x xs =>
      simp only [freeListMin?]
      cases freeListMin? xs <;> simp

theorem freeListMin?_spec (l : List EntityId) (m : EntityId)
    (h : freeListMin? l = some m) : m ∈ l ∧ ∀ x ∈ l, m ≤ x := by
  induction l generalizing m with
  | nil => simp [freeListMin?] at h
  | cons x xs ih =>
      simp only [freeListMin?] at h
      cases hx : freeListMin? xs with
      | none =>
          rw [hx] at h
          simp only [Option.some.injEq] at h
          subst h
          have hnil : xs = [] := (freeListMin?_eq_none xs).mp hx
          subst hnil
          simp
      | some k =>
          rw [hx] at h
          simp only [Option.some.injEq] at h
          obtain ⟨hkmem, hkle⟩ := ih k hx
          have hmx : m ≤ x := by
            rw [← h]
            exact min_le_left x k
          have hmk : m ≤ k := by
            rw [← h]
            exact min_le_right x k
          have hcase : m = x ∨ m = k := by
            rcases min_choice x k with hc | hc
            · exact Or.inl (by rw [← h, hc])
            · exact Or.inr (by rw [← h, hc])
          constructor
          · rcases hcase with hm | hm
            · rw [hm]
              exact List.mem_cons_self x xs
            · rw [hm]
              exact List.mem_cons_of_mem x hkmem
          · intro y hy
            rcases List.mem_cons.mp hy with hy | hy
            · rw [hy]
              exact hmx
            · exact le_trans hmk (hkle y hy)

theorem mem_getEntities (w : World) (M : ComponentMask) (id : EntityId) :
    id ∈ w.getEntities M ↔
      ∃ e, w.entities_[id]? = some e ∧ e.exists_ = true ∧
        e.components.includesMask M = true := by
  simp only [World.getEntities, List.mem_filter, List.mem_range]
  constructor
  · rintro ⟨hlt, hp⟩
    cases hget : w.entities_[id]? with
    | none => rw [hget] at hp; exact absurd hp (by simp)
    | some e =>
        rw [hget] at hp
        simp only [Bool.and_eq_true] at hp
        exact ⟨e, rfl, hp.1, hp.2⟩
  · rintro ⟨e, hget, hex, hinc⟩
    have hlt : id < w.entities_.length := (List.getElem?_eq_some.mp hget).1
    refine ⟨hlt, ?_⟩
    rw [hget]
    simp [hex, hinc]

theorem getEntities_sorted (w : World) (M : ComponentMask) :
    List.Sorted (· < ·) (w.getEntities M) :=
  List.Pairwise.filter _ (List.pairwise_lt_range w.entities_.length)

theorem mem_getEntities_all (w : World) (id : EntityId) :
    id ∈ w.getEntities ↔ w.entityExists id = true := by
  rw [mem_getEntities]
  simp only [World.entityExists]
  cases hget : w.entities_[id]? with
  | none => simp
  | some e => simp [includesMask_empty]

theorem getElem?_set_self_of_lt {α : Type} (l : List α) (i : Nat) (a : α)
    (h : i < l.length) : (l.set i a)[i]? = some a := by
  rw [List.getElem?_set_self']
  rw [List.getElem?_eq_getElem h]
  rfl

theorem systemData_remove_eq (sd : SystemData) (e : EntityId)
    (h : sd.has e = true) :
    sd.remove e =
      some ⟨sd.boundComponent_,
        ⟨sd.data_.componentSize_, sd.data_.pageSize_, sd.data_.occupied.erase e⟩⟩ := by
  simp only [SystemData.has] at h
  simp [SystemData.remove, ComponentPool.get, ComponentPool.remove, h]

theorem sweepList_has (w : World) (l : List EntityId) :
    ∀ (sd : SystemData) (E : EntityId),
      (SystemData.sweepList w sd l).has E = true ↔
        (sd.has E = true ∧
          (E ∈ l → w.hasComponent E sd.boundComponent_ = true)) := by
  induction l with
  | nil =>
      intro sd E
      simp [SystemData.sweepList]
  | cons e rest ih =>
      intro sd E
      by_cases hg : (sd.has e && !(w.hasComponent e sd.boundComponent_)) = true
      · obtain ⟨hhas, hnc⟩ := Bool.and_eq_true_iff.mp hg
        have hncf : w.hasComponent e sd.boundComponent_ = false := by
          simpa using hnc
        have hstep : SystemData.sweepList w sd (e :: rest) =
            SystemData.sweepList w
              ⟨sd.boundComponent_,
                ⟨sd.data_.componentSize_, sd.data_.pageSize_,
                 sd.data_.occupied.erase e⟩⟩ rest := by
          simp [SystemData.sweepList, hg, systemData_remove_eq sd e hhas]
        rw [hstep, ih]
        simp only [SystemData.has, ComponentPool.has, decide_eq_true_eq,
          Finset.mem_erase, List.mem_cons]
        constructor
        · rintro ⟨⟨hne, hmem⟩, himp⟩
          refine ⟨hmem, ?_⟩
          rintro (hEe | hEr)
          · exact absurd hEe hne
          · exact himp hEr
        · rintro ⟨hmem, himp⟩
          by_cases hEe : E = e
          · subst hEe
            have := himp (Or.inl rfl)
            rw [this] at hncf
            cases hncf
          · exact ⟨⟨hEe, hmem⟩, fun hEr => himp (Or.inr hEr)⟩
      · have hstep : SystemData.sweepList w sd (e :: rest) =
            SystemData.sweepList w sd rest := by
          simp only [SystemData.sweepList, hg, Bool.false_eq_true, if_false]
        rw [hstep, ih]
        simp only [List.mem_cons]
        constructor
        · rintro ⟨hmem, himp⟩
          refine ⟨hmem, ?_⟩
          rintro (hEe | hEr)
          · subst hEe
            have hgf : (sd.has E && !w.hasComponent E sd.boundComponent_) = false :=
              Bool.eq_false_iff.mpr hg
            simp [hmem] at hgf
            exact hgf
          · exact himp hEr
        · rintro ⟨hmem, himp⟩
          exact ⟨hmem, fun hEr => himp (Or.inr hEr)⟩

theorem removeSweep_has (sd : SystemData) (w : World) (E : EntityId) :
    (sd.removeSweep w).has E = true ↔
      (sd.has E = true ∧
        (w.entityExists E = true →
          w.hasComponent E sd.boundComponent_ = true)) := by
  unfold SystemData.removeSweep
  rw [sweepList_has]
  constructor
  · rintro ⟨hh, himp⟩
    exact ⟨hh, fun hex => himp ((mem_getEntities_all w E).mpr hex)⟩
  · rintro ⟨hh, himp⟩
    exact ⟨hh, fun hmem => himp ((mem_getEntities_all w E).mp hmem)⟩

theorem entityExists_lt_length (w : World) (id : EntityId)
    (hex : w.entityExists id = true) : id < w.entities_.length := by
  unfold World.entityExists at hex
  cases he : w.entities_[id]? with
  | none =>
      rw [he] at hex
      cases hex
  | some e => exact (List.getElem?_eq_some.mp he).1

theorem removeComponent_some_cases (w : World) (E : EntityId) (D : ComponentId)
    (w' : World) (h : w.removeComponent E D = some w') :
    ∃ e pool pool1, w.entities_[E]? = some e ∧ w.componentPools_[D]? = some pool ∧
      pool.remove E = some pool1 ∧
      w' = { w with
               entities_ :=
                 w.entities_.set E { e with components := e.components.resetBit D },
               componentPools_ := w.componentPools_.set D pool1 } := by
  unfold World.removeComponent at h
  split at h
  · rename_i e pool he hp
    cases hr : pool.remove E with
    | none =>
        rw [hr] at h
        cases h
    | some pool1 =>
        rw [hr] at h
        simp only [Option.some.injEq] at h
        exact ⟨e, pool, pool1, he, hp, hr, h.symm⟩
  · cases h

theorem removeComponent_keeps_exists (w : World) (E : EntityId) (D : ComponentId)
    (w' : World) (h : w.removeComponent E D = some w')
    (hex : w.entityExists E = true) : w'.entityExists E = true := by
  obtain ⟨e, pool, pool1, he, hp, hr, hw⟩ := removeComponent_some_cases w E D w' h
  subst hw
  have hlt : E < w.entities_.length := entityExists_lt_length w E hex
  unfold World.entityExists
  simp only
  rw [getElem?_set_self_of_lt _ _ _ hlt]
  unfold World.entityExists at hex
  rw [he] at hex
  exact hex

theorem removeComponent_clears_component (w : World) (E : EntityId)
    (D : ComponentId) (w' : World) (h : w.removeComponent E D = some w') :
    w'.hasComponent E D = false := by
  obtain ⟨e, pool, pool1, he, hp, hr, hw⟩ := removeComponent_some_cases w E D w' h
  subst hw
  have hlt : E < w.entities_.length := (List.getElem?_eq_some.mp he).1
  unfold World.hasComponent
  simp only
  rw [getElem?_set_self_of_lt _ _ _ hlt]
  exact resetBit_includes_self e.components D

theorem destroyEntity_eq (w : World) (id : EntityId) (w' : World)
    (h : w.destroyEntity id = some w') :
    w.entityExists id = true ∧
      w' = { w with
               entities_ := w.entities_.set id ⟨false, ComponentMask.empty⟩,
               entityIdFreeList_ := id :: w.entityIdFreeList_ } := by
  unfold World.destroyEntity at h
  by_cases hex : w.entityExists id = true
  · simp only [hex, if_true, Option.some.injEq] at h
    exact ⟨hex, h.symm⟩
  · simp only [hex, Bool.false_eq_true, if_false] at h
    cases h

theorem destroyEntity_not_exists (w : World) (id : EntityId) (w' : World)
    (h : w.destroyEntity id = some w') : w'.entityExists id = false := by
  obtain ⟨hex, hw⟩ := destroyEntity_eq w id w' h
  subst hw
  have hlt : id < w.entities_.length := entityExists_lt_length w id hex
  unfold World.entityExists
  simp only
  rw [getElem?_set_self_of_lt _ _ _ hlt]

theorem lookup_cons_self (k : String) (v : Nat) (m : List (String × Nat)) :
    ((k, v) :: m).lookup k = some v := by
  simp [List.lookup]

theorem lookup_cons_ne (n k : String) (v : Nat) (m : List (String × Nat))
    (h : n ≠ k) : ((k, v) :: m).lookup n = m.lookup n := by
  rw [List.lookup]
  rw [beq_eq_false_iff_ne.mpr h]

theorem lookup_emplaceAssoc_self_isSome (m : List (String × Nat)) (k : String)
    (v : Nat) : ((emplaceAssoc m k v).lookup k).isSome = true := by
  unfold emplaceAssoc
  by_cases hk : (m.lookup k).isSome = true
  · rw [if_pos hk]
    exact hk
  · rw [if_neg hk]
    rw [lookup_cons_self]
    rfl

theorem lookup_emplaceAssoc_preserved (m : List (String × Nat)) (k : String)
    (v : Nat) (n : String) (h : (m.lookup n).isSome = true) :
    ((emplaceAssoc m k v).lookup n).isSome = true := by
  unfold emplaceAssoc
  by_cases hk : (m.lookup k).isSome = true
  · rw [if_pos hk]
    exact h
  · rw [if_neg hk]
    by_cases hnk : n = k
    · subst hnk
      rw [lookup_cons_self]
      rfl
    · rw [lookup_cons_ne n k v m hnk]
      exact h

theorem mem_insertSystemSorted (s : System) (l : List System) (y : System) :
    y ∈ insertSystemSorted s l ↔ y = s ∨ y ∈ l := by
  induction l with
  | nil => simp [insertSystemSorted]
  | cons x xs ih =>
      simp only [insertSystemSorted]
      by_cases hc : x.name < s.name
      · rw [if_pos hc]
        rw [List.mem_cons, ih, List.mem_cons]
        tauto
      · rw [if_neg hc]
        simp [List.mem_cons]

theorem sorted_insertSystemSorted (s : System) (l : List System)
    (h : List.Sorted (fun a b : System => a.name ≤ b.name) l) :
    List.Sorted (fun a b : System => a.name ≤ b.name) (insertSystemSorted s l) := by
  induction l with
  | nil => simp [insertSystemSorted]
  | cons x xs ih =>
      rw [List.sorted_cons] at h
      obtain ⟨hx, hxs⟩ := h
      simp only [insertSystemSorted]
      by_cases hc : x.name < s.name
      · rw [if_pos hc]
        rw [List.sorted_cons]
        constructor
        · intro y hy
          rcases (mem_insertSystemSorted s xs y).mp hy with hy | hy
          · rw [hy]
            exact le_of_lt hc
          · exact hx y hy
        · exact ih hxs
      · rw [if_neg hc]
        rw [List.sorted_cons]
        constructor
        · intro y hy
          rcases List.mem_cons.mp hy with hy | hy
          · rw [hy]
            exact le_of_not_lt hc
          · exact le_trans (le_of_not_lt hc) (hx y hy)
        · exact List.sorted_cons.mpr ⟨hx, hxs⟩

theorem registerSystem_systems_sorted (w : World) (n : String) (f : Nat)
    (h : List.Sorted (fun a b : System => a.name ≤ b.name) w.systems_) :
    List.Sorted (fun a b : System => a.name ≤ b.name)
      (w.registerSystem n f).systems_ :=
  sorted_insertSystemSorted ⟨n, f, true⟩ w.systems_ h

theorem registerSystems_systems_sorted (regs : List (String × Nat)) :
    ∀ w : World, List.Sorted (fun a b : System => a.name ≤ b.name) w.systems_ →
      List.Sorted (fun a b : System => a.name ≤ b.name)
        (w.registerSystems regs).systems_ := by
  induction regs with
  | nil =>
      intro w h
      exact h
  | cons r rest ih =>
      intro w h
      exact ih (w.registerSystem r.1 r.2) (registerSystem_systems_sorted w r.1 r.2 h)

theorem buildNames_sound_aux (L : List System) (l : List System) :
    ∀ (i : Nat) (m : List (String × Nat)),
      (∀ k : Nat, l[k]? = L[i + k]?) →
      (∀ (n : String) (j : Nat), m.lookup n = some j →
        ∃ s, L[j]? = some s ∧ s.name = n) →
      ((∀ (n : String) (j : Nat), (buildSystemNamesFrom i l m).lookup n = some j →
          ∃ s, L[j]? = some s ∧ s.name = n)
        ∧ (∀ n : String,
            ((m.lookup n).isSome = true ∨ n ∈ l.map System.name) →
            ((buildSystemNamesFrom i l m).lookup n).isSome = true)) := by
  induction l with
  | nil =>
      intro i m hidx hm
      constructor
      · intro n j h
        exact hm n j h
      · intro n hn
        rcases hn with hn | hn
        · exact hn
        · simp at hn
  | cons s rest ih =>
      intro i m hidx hm
      have hidx1 : ∀ k : Nat, rest[k]? = L[(i + 1) + k]? := by
        intro k
        have hk := hidx (k + 1)
        rw [List.getElem?_cons_succ] at hk
        rw [hk]
        congr 1
        omega
      have hL0 : L[i]? = some s := by
        have h0 := hidx 0
        rw [List.getElem?_cons_zero] at h0
        simpa using h0.symm
      have hm1 : ∀ (n : String) (j : Nat),
          (emplaceAssoc m s.name i).lookup n = some j →
          ∃ t, L[j]? = some t ∧ t.name = n := by
        intro n j h
        unfold emplaceAssoc at h
        by_cases hk : (m.lookup s.name).isSome = true
        · rw [if_pos hk] at h
          exact hm n j h
        · rw [if_neg hk] at h
          by_cases hnk : n = s.name
          · subst hnk
            rw [lookup_cons_self] at h
            simp only [Option.some.injEq] at h
            subst h
            exact ⟨s, hL0, rfl⟩
          · rw [lookup_cons_ne n s.name i m hnk] at h
            exact hm n j h
      obtain ⟨ihsound, ihsome⟩ := ih (i + 1) (emplaceAssoc m s.name i) hidx1 hm1
      constructor
      · intro n j h
        exact ihsound n j h
      · intro n hn
        apply ihsome
        rcases hn with hn | hn
        · exact Or.inl (lookup_emplaceAssoc_preserved m s.name i n hn)
        · rw [List.map_cons, List.mem_cons] at hn
          rcases hn with hn | hn
          · subst hn
            exact Or.inl (lookup_emplaceAssoc_self_isSome m s.name i)
          · exact Or.inr hn

theorem registerSystem_goodTable (w : World) (n0 : String) (f : Nat) :
    goodTable (w.registerSystem n0 f) := by
  intro n hn
  have hsys : (w.registerSystem n0 f).systems_ =
      insertSystemSorted ⟨n0, f, true⟩ w.systems_ := rfl
  have htbl : (w.registerSystem n0 f).systemNames_ =
      buildSystemNamesFrom 0 (insertSystemSorted ⟨n0, f, true⟩ w.systems_) [] := rfl
  rw [hsys] at hn
  rw [hsys, htbl]
  obtain ⟨hsound, hsome⟩ :=
    buildNames_sound_aux (insertSystemSorted ⟨n0, f, true⟩ w.systems_)
      (insertSystemSorted ⟨n0, f, true⟩ w.systems_) 0 []
      (by
        intro k
        rw [Nat.zero_add])
      (by
        intro n j h
        simp [List.lookup] at h)
  have hs := hsome n (Or.inr hn)
  obtain ⟨j, hj⟩ := Option.isSome_iff_exists.mp hs
  obtain ⟨s, hsj, hname⟩ := hsound n j hj
  rw [hj]
  simp [hsj, hname]

theorem registerSystems_goodTable (regs : List (String × Nat)) :
    ∀ w : World, goodTable w → goodTable (w.registerSystems regs) := by
  induction regs with
  | nil =>
      intro w h
      exact h
  | cons r rest ih =>
      intro w _
      exact ih (w.registerSystem r.1 r.2) (registerSystem_goodTable w r.1 r.2)

theorem empty_registryAligned : registryAligned World.empty 0 := by
  refine ⟨rfl, rfl, ?_⟩
  intro k comp h
  simp [World.empty] at h

theorem registerComponent_aligned (w : World) (ctr : Nat) (name : String)
    (sz : Nat) (w' : World) (ctr' : Nat) (hal : registryAligned w ctr)
    (h : w.registerComponent ctr name sz = some (w', ctr')) :
    registryAligned w' ctr' := by
  obtain ⟨hc, hp, hk⟩ := hal
  unfold World.registerComponent at h
  split at h
  · simp only [Component.make, Option.some.injEq, Prod.mk.injEq] at h
    obtain ⟨hw, hctr⟩ := h
    subst hw
    subst hctr
    refine ⟨?_, ?_, ?_⟩
    · simp only [List.length_append, List.length_cons, List.length_nil]
      omega
    · simp only [List.length_append, List.length_cons, List.length_nil]
      omega
    · intro k comp hkk
      simp only at hkk ⊢
      by_cases hlt : k < w.components_.length
      · rw [List.getElem?_append_left hlt] at hkk
        obtain ⟨hid, hpool⟩ := hk k comp hkk
        refine ⟨hid, ?_⟩
        have hltp : k < w.componentPools_.length := by omega
        rw [List.getElem?_append_left hltp]
        exact hpool
      · rcases Nat.lt_or_ge k (w.components_.length + 1) with hk1 | hk1
        · have heq : k = w.components_.length := by omega
          subst heq
          rw [List.getElem?_concat_length] at hkk
          simp only [Option.some.injEq] at hkk
          subst hkk
          refine ⟨by simpa using hc, ?_⟩
          have hpl : w.componentPools_.length = w.components_.length := hp
          rw [← hpl]
          rw [List.getElem?_concat_length]
        · have hnone : (w.components_ ++ [⟨ctr, name, sz⟩])[k]? =
              (none : Option Component) := by
            rw [List.getElem?_eq_none_iff]
            simp only [List.length_append, List.length_cons, List.length_nil]
            omega
          rw [hnone] at hkk
          cases hkk
  · cases h

theorem registerComponents_aligned (regs : List (String × Nat)) :
    ∀ (w : World) (ctr : Nat) (w' : World) (ctr' : Nat),
      registryAligned w ctr →
      w.registerComponents ctr regs = some (w', ctr') →
      registryAligned w' ctr' := by
  induction regs with
  | nil =>
      intro w ctr w' ctr' hal h
      simp only [World.registerComponents, Option.some.injEq, Prod.mk.injEq] at h
      obtain ⟨hw, hctr⟩ := h
      subst hw
      subst hctr
      exact hal
  | cons r rest ih =>
      intro w ctr w' ctr' hal h
      simp only [World.registerComponents] at h
      cases hr : w.registerComponent ctr r.1 r.2 with
      | none =>
          rw [hr] at h
          cases h
      | some p =>
          rw [hr] at h
          exact ih p.1 p.2 w' ctr'
            (registerComponent_aligned w ctr r.1 r.2 p.1 p.2 hal hr) h

/-- C1: entity id reuse is smallest-first.  In the concrete scenario,
entities 0, 1, 2 are created, entity 1 is destroyed, and the next two
`newEntity()` calls return 1 then 3.  In general `newEntity()` returns the
minimum of the free list when one exists (the smallest previously-freed id)
and the current entity-table length otherwise. -/
theorem C1_newEntity_smallest_reuse :
    (World.empty.newEntity.1 = 0 ∧ c1W1.newEntity.1 = 1 ∧
      c1W2.newEntity.1 = 2 ∧ c1W3.destroyEntity 1 = some c1W4 ∧
      c1W4.newEntity.1 = 1 ∧ c1W4.newEntity.2.newEntity.1 = 3) ∧
    ∀ w : World,
      (w.entityIdFreeList_ = [] → w.newEntity.1 = w.entities_.length) ∧
      (∀ m, freeListMin? w.entityIdFreeList_ = some m →
        w.newEntity.1 = m ∧ m ∈ w.entityIdFreeList_ ∧
          ∀ x ∈ w.entityIdFreeList_, m ≤ x) := by
  constructor
  · exact ⟨by decide, by decide, by decide, by decide, by decide, by decide⟩
  · intro w
    constructor
    · intro h
      unfold World.newEntity
      rw [h]
      rfl
    · intro m hm
      obtain ⟨hmem, hle⟩ := freeListMin?_spec w.entityIdFreeList_ m hm
      refine ⟨?_, hmem, hle⟩
      unfold World.newEntity
      rw [hm]

theorem C1_witness :
    World.empty.newEntity.1 = World.empty.entities_.length ∧
      c1W4.newEntity.1 = 1 :=
  ⟨(C1_newEntity_smallest_reuse.2 World.empty).1 rfl,
   ((C1_newEntity_smallest_reuse.2 c1W4).2 1 (by decide)).1⟩

/-- C2: secondary-store sweep correctness.  An entry for entity E in a bound
store survives a parameterless `remove()` sweep while E carries the driving
component, and after `removeComponent(E, drivingId)` the next sweep destroys
the entry (`has(E)` becomes false). -/
theorem C2_secondary_store_sweep :
    ∀ (w : World) (sd : SystemData) (E : EntityId),
      (sd.has E = true → w.hasComponent E sd.boundComponent_ = true →
        (sd.removeSweep w).has E = true) ∧
      (∀ w' : World, w.entityExists E = true → sd.has E = true →
        w.removeComponent E sd.boundComponent_ = some w' →
        (sd.removeSweep w').has E = false) := by
  intro w sd E
  constructor
  · intro hh hc
    exact (removeSweep_has sd w E).mpr ⟨hh, fun _ => hc⟩
  · intro w' hex hh hrem
    have hex2 := removeComponent_keeps_exists w E sd.boundComponent_ w' hrem hex
    have hclr := removeComponent_clears_component w E sd.boundComponent_ w' hrem
    cases hval : (sd.removeSweep w').has E with
    | false => rfl
    | true =>
        obtain ⟨_, himp⟩ := (removeSweep_has sd w' E).mp hval
        rw [himp hex2] at hclr
        cases hclr

theorem C2_witness :
    (exSD.removeSweep exW3).has 0 = true ∧
      (exSD.removeSweep exW4).has 0 = false :=
  ⟨(C2_secondary_store_sweep exW3 exSD 0).1 (by decide) (by decide),
   (C2_secondary_store_sweep exW3 exSD 0).2 exW4 (by decide) (by decide)
     (by decide)⟩

/-- C3, counterexample: the component-id counter is shared process-wide, so
in a process where one World has already registered a component (advancing
the counter to 1), a second World registering its 0-th component receives
id 1 — not 0 — while owning a single pool at index 0; `componentPools_[1]`
does not exist, so `componentPools_[compId]` is not the pool allocated for
that component. -/
theorem C3_counterexample :
    (World.empty.registerComponent 0 "posA" 4).map Prod.snd = some 1 ∧
    (World.empty.registerComponent 1 "posB" 4).map
        (fun p => p.1.components_[0]?.map Component.id) = some (some 1) ∧
    (World.empty.registerComponent 1 "posB" 4).map
        (fun p => p.1.componentPools_[1]?) = some none := by
  exact ⟨by decide, by decide, by decide⟩

/-- C3 (amended): in a process where every registration goes through the one
World — the World's registrations receive consecutive counter values
starting at 0 — the n-th registered component (0-based) has id n, and
`componentPools_[compId]`, as used by addComponent/getComponent/
removeComponent, is exactly the pool allocated for that component at
registration. -/
theorem C3_component_ids_index_pools :
    ∀ (regs : List (String × Nat)) (w : World) (ctr : Nat),
      World.empty.registerComponents 0 regs = some (w, ctr) →
      (∀ (n : Nat) (comp : Component), w.components_[n]? = some comp →
        comp.id = n ∧
          w.componentPools_[comp.id]? =
            some (ComponentPool.new comp.structSize)) ∧
      w.componentPools_.length = w.components_.length := by
  intro regs w ctr h
  obtain ⟨hc, hp, hk⟩ :=
    registerComponents_aligned regs World.empty 0 w ctr empty_registryAligned h
  refine ⟨?_, hp⟩
  intro n comp hn
  obtain ⟨hid, hpool⟩ := hk n comp hn
  refine ⟨hid, ?_⟩
  rw [hid]
  exact hpool

theorem C3_witness :
    (⟨1, "b", 2⟩ : Component).id = 1 ∧
      c3W.componentPools_[(⟨1, "b", 2⟩ : Component).id]? =
        some (ComponentPool.new (⟨1, "b", 2⟩ : Component).structSize) :=
  (C3_component_ids_index_pools [("a", 1), ("b", 2)] c3W 2 (by decide)).1 1
    ⟨1, "b", 2⟩ (by decide)

/-- C4: pool occupancy invariant.  After any successful sequence of
`add`/`remove` calls on a fresh pool, `has(id)` is true exactly when the
most recent operation on `id` was an add not followed by a remove; `add` on
a present id fails, and `get`/`remove` on an absent id fail. -/
theorem C4_pool_occupancy :
    ∀ (sz pg : Nat) (ops : List PoolOp) (p : ComponentPool),
      (ComponentPool.new sz pg).runOps ops = some p →
      (∀ id, p.has id = lastOpWasAdd id ops) ∧
      (∀ id, p.has id = true → p.add id = none) ∧
      (∀ id, p.has id = false → p.get id = none ∧ p.remove id = none) := by
  intro sz pg ops p h
  refine ⟨?_, ?_, ?_⟩
  · intro id
    rw [runOps_has ops (ComponentPool.new sz pg) p h id]
    rfl
  · intro id hid
    simp [ComponentPool.add, hid]
  · intro id hid
    constructor
    · simp [ComponentPool.get, hid]
    · simp [ComponentPool.remove, hid]

theorem C4_witness :
    c4Pool.has 0 =
        lastOpWasAdd 0 [PoolOp.addOp 0, PoolOp.addOp 1, PoolOp.removeOp 0] ∧
      c4Pool.add 1 = none :=
  ⟨(C4_pool_occupancy 4 0 [PoolOp.addOp 0, PoolOp.addOp 1, PoolOp.removeOp 0]
      c4Pool (by decide)).1 0,
   (C4_pool_occupancy 4 0 [PoolOp.addOp 0, PoolOp.addOp 1, PoolOp.removeOp 0]
      c4Pool (by decide)).2.1 1 (by decide)⟩

/-- C5: query correctness.  `getEntities(M)` contains exactly the existing
entities whose own mask includes M, is sorted in ascending id order, and
with the default empty mask contains exactly the existing entities. -/
theorem C5_getEntities_query :
    ∀ (w : World) (M : ComponentMask) (id : EntityId),
      (id ∈ w.getEntities M ↔
        ∃ e, w.entities_[id]? = some e ∧ e.exists_ = true ∧
          e.components.includesMask M = true) ∧
      List.Sorted (· < ·) (w.getEntities M) ∧
      (id ∈ w.getEntities ↔ w.entityExists id = true) := by
  intro w M id
  exact ⟨mem_getEntities w M id, getEntities_sorted w M, mem_getEntities_all w id⟩

theorem C5_witness : exW3.entityExists 0 = true :=
  (C5_getEntities_query exW3 ComponentMask.empty 0).2.2.mp (by decide)

theorem zam_systems :
    (World.empty.registerSystems
        [("zeta", 0), ("alpha", 1), ("mid", 2)]).systems_ =
      [⟨"alpha", 1, true⟩, ⟨"mid", 2, true⟩, ⟨"zeta", 0, true⟩] := by
  have hza : ¬ (("zeta" : String) < "alpha") := by
    rw [String.lt_iff_toList_lt]
    decide
  have ham : ("alpha" : String) < "mid" := by
    rw [String.lt_iff_toList_lt]
    decide
  have hzm : ¬ (("zeta" : String) < "mid") := by
    rw [String.lt_iff_toList_lt]
    decide
  have s1 : (World.empty.registerSystem "zeta" 0).systems_ =
      [⟨"zeta", 0, true⟩] := rfl
  have s2 : ((World.empty.registerSystem "zeta" 0).registerSystem
      "alpha" 1).systems_ = [⟨"alpha", 1, true⟩, ⟨"zeta", 0, true⟩] := by
    show insertSystemSorted ⟨"alpha", 1, true⟩
        (World.empty.registerSystem "zeta" 0).systems_ = _
    rw [s1]
    simp only [insertSystemSorted]
    rw [if_neg hza]
  show insertSystemSorted ⟨"mid", 2, true⟩
      ((World.empty.registerSystem "zeta" 0).registerSystem "alpha" 1).systems_ = _
  rw [s2]
  simp only [insertSystemSorted]
  rw [if_pos ham, if_neg hzm]

theorem zam_names :
    (World.empty.registerSystems
        [("zeta", 0), ("alpha", 1), ("mid", 2)]).systems_.map System.name =
      ["alpha", "mid", "zeta"] := by
  rw [zam_systems]
  rfl

/-- C6: system registry ordering.  After any sequence of `registerSystem`
calls on a fresh World the systems list is sorted ascending by name, and the
rebuilt name-to-index table maps each registered name to a position holding
that name; registering "zeta", "alpha", "mid" in that order yields iteration
order alpha, mid, zeta. -/
theorem C6_system_registry_order :
    (∀ regs : List (String × Nat),
      List.Sorted (fun a b : System => a.name ≤ b.name)
        (World.empty.registerSystems regs).systems_ ∧
      ∀ n, n ∈ (World.empty.registerSystems regs).systems_.map System.name →
        ((World.empty.registerSystems regs).systemNames_.lookup n).bind
            (fun i =>
              (World.empty.registerSystems regs).systems_[i]?.map System.name) =
          some n) ∧
    (World.empty.registerSystems
        [("zeta", 0), ("alpha", 1), ("mid", 2)]).systems_.map System.name =
      ["alpha", "mid", "zeta"] := by
  constructor
  · intro regs
    constructor
    · exact registerSystems_systems_sorted regs World.empty (by simp [World.empty])
    · exact registerSystems_goodTable regs World.empty
        (by
          intro n hn
          simp [World.empty] at hn)
  · exact zam_names

theorem C6_witness :
    ((World.empty.registerSystems
        [("zeta", 0), ("alpha", 1), ("mid", 2)]).systemNames_.lookup "mid").bind
        (fun i =>
          (World.empty.registerSystems
            [("zeta", 0), ("alpha", 1), ("mid", 2)]).systems_[i]?.map
            System.name) = some "mid" :=
  (C6_system_registry_order.1 [("zeta", 0), ("alpha", 1), ("mid", 2)]).2 "mid"
    (by
      rw [zam_names]
      decide)

/-- C7: destroyEntity frame condition.  For an existing entity, destruction
flips `exists` to false, clears the mask, pushes the id onto the free list,
and leaves every component pool — including its occupancy bit for that id —
unchanged. -/
theorem C7_destroyEntity_frame :
    ∀ (w : World) (id : EntityId), w.entityExists id = true →
      ∀ w', w.destroyEntity id = some w' →
        w'.entityExists id = false ∧
        w'.entities_[id]? = some ⟨false, ComponentMask.empty⟩ ∧
        id ∈ w'.entityIdFreeList_ ∧
        w'.componentPools_ = w.componentPools_ ∧
        w'.componentPools_.map (fun p => p.has id) =
          w.componentPools_.map (fun p => p.has id) := by
  intro w id hex w' h
  have hne := destroyEntity_not_exists w id w' h
  obtain ⟨_, hw⟩ := destroyEntity_eq w id w' h
  subst hw
  refine ⟨hne, ?_, ?_, rfl, rfl⟩
  · exact getElem?_set_self_of_lt _ _ _ (entityExists_lt_length w id hex)
  · exact List.mem_cons_self id _

theorem C7_witness :
    exW5.entityExists 0 = false ∧
      exW5.entities_[0]? = some ⟨false, ComponentMask.empty⟩ ∧
      0 ∈ exW5.entityIdFreeList_ ∧
      exW5.componentPools_ = exW3.componentPools_ ∧
      exW5.componentPools_.map (fun p => p.has 0) =
        exW3.componentPools_.map (fun p => p.has 0) :=
  C7_destroyEntity_frame exW3 0 (by decide) exW5 (by decide)

/-- C8: ComponentMask laws.  `(A+B).includes(A)` and `(A+B).includes(B)`
hold for all masks; `A.includesNot(B)` holds exactly when no bit is set in
both A and B; and `include(id)` is idempotent.  (The `+` operators leave
their operands unmodified by construction: the embedding's operators are
pure functions returning a fresh mask.) -/
theorem C8_mask_laws :
    ∀ A B : ComponentMask,
      (A.addMask B).includesMask A = true ∧
      (A.addMask B).includesMask B = true ∧
      (A.includesNot B = true ↔
        ∀ i, (A.includes i && B.includes i) = false) ∧
      ∀ id, (A.includeId id).includeId id = A.includeId id := by
  intro A B
  exact ⟨includesMask_addMask_left A B, includesMask_addMask_right A B,
    includesNot_iff_no_shared_bit A B, includeId_idem A⟩

theorem C8_witness : (⟨0⟩ : ComponentMask).includesNot ⟨5⟩ = true :=
  ((C8_mask_laws ⟨0⟩ ⟨5⟩).2.2.1).mpr
    (by
      intro i
      simp [ComponentMask.includes])

/-- C9: the sweep does not prune entries of destroyed entities: after
`destroyEntity(E)`, a subsequent parameterless `remove()` sweep leaves the
store's entry for E in place, because the sweep iterates only entities whose
`exists` flag is true (those returned by `getEntities()`). -/
theorem C9_sweep_skips_destroyed :
    ∀ (w : World) (sd : SystemData) (E : EntityId) (w' : World),
      w.destroyEntity E = some w' → sd.has E = true →
      (sd.removeSweep w').has E = true := by
  intro w sd E w' h hh
  have hne := destroyEntity_not_exists w E w' h
  apply (removeSweep_has sd w' E).mpr
  refine ⟨hh, ?_⟩
  intro hex
  rw [hex] at hne
  cases hne

theorem C9_witness : (exSD.removeSweep exW5).has 0 = true :=
  C9_sweep_skips_destroyed exW3 exSD 0 exW5 (by decide) (by decide)

/-- C10: registerSystem does not enforce name uniqueness.  Registering the
same name twice succeeds, leaves two entries with that name in the systems
list (the second registration lands in front), the rebuilt table maps the
name to exactly one index (the first), and `invokeSystem` therefore reaches
only the function registered second. -/
theorem C10_duplicate_system_names :
    ∀ (n : String) (f g : Nat),
      ((World.empty.registerSystem n f).registerSystem n g).systems_.map
          System.name = [n, n] ∧
      ((World.empty.registerSystem n f).registerSystem n g).systems_.map
          System.function = [g, f] ∧
      ((World.empty.registerSystem n f).registerSystem n g).systemNames_ =
        [(n, 0)] ∧
      ((World.empty.registerSystem n f).registerSystem n g).invokeSystem n =
        some g := by
  intro n f g
  have hins : insertSystemSorted ⟨n, g, true⟩ [⟨n, f, true⟩] =
      [⟨n, g, true⟩, ⟨n, f, true⟩] := by
    simp only [insertSystemSorted]
    rw [if_neg (lt_irrefl n)]
  have hsys : ((World.empty.registerSystem n f).registerSystem n g).systems_ =
      [⟨n, g, true⟩, ⟨n, f, true⟩] := by
    show insertSystemSorted ⟨n, g, true⟩
        (World.empty.registerSystem n f).systems_ = _
    rw [show (World.empty.registerSystem n f).systems_ = [⟨n, f, true⟩] from rfl,
      hins]
  have hemp : emplaceAssoc [(n, 0)] n 1 = [(n, 0)] := by
    unfold emplaceAssoc
    rw [lookup_cons_self]
    rfl
  have htbl : ((World.empty.registerSystem n f).registerSystem n g).systemNames_ =
      [(n, 0)] := by
    show buildSystemNamesFrom 0
        (insertSystemSorted ⟨n, g, true⟩
          (World.empty.registerSystem n f).systems_) [] = _
    rw [show (World.empty.registerSystem n f).systems_ = [⟨n, f, true⟩] from rfl,
      hins]
    show buildSystemNamesFrom 2 [] (emplaceAssoc (emplaceAssoc [] n 0) n 1) = _
    rw [show emplaceAssoc [] n 0 = [(n, 0)] from rfl, hemp]
    rfl
  refine ⟨?_, ?_, htbl, ?_⟩
  · rw [hsys]
    rfl
  · rw [hsys]
    rfl
  · unfold World.invokeSystem
    rw [htbl, lookup_cons_self, hsys]
    rfl
